import Mathlib

/-!
Verification of the records state model of the working-time-around
application: persistence transform (src/state/store.ts, `setTransform`),
latest-session derivation (spec §4.1), and the month exporters
(src/implementations/formatter.ts and the `List` component's
`createMailToUri`).

Modelling conventions:
* JavaScript `Date` values are epoch milliseconds (`Int`); local time is
  modelled as UTC (the time zone is environmental, not part of the code).
* The textual JSON layer is modelled at the tree level: `Json` is a parsed
  JSON document (string, array and object nodes are the only shapes the
  records slice produces), and `JSON.stringify`/`JSON.parse` of the tree
  itself is the identity on that tree.  The repository-level content of the
  transform — which keys are re-hydrated and how — is modelled exactly.
* The `Date`→ISO-string serialisation performed by `JSON.stringify` and the
  inverse parse performed by `dayjs(v).toDate()` are external library code
  (V8 and dayjs, not part of this repository); they are modelled as an
  explicit codec `DateCodec`, with the round-trip assumption stated as a
  hypothesis where a claim needs it and discharged by a concrete invertible
  codec in witnesses.
-/

namespace WTA

/-- A daily record, from src/state/ducks/records/types.ts: parallel arrays of
start timestamps, stop timestamps and memo texts. -/
structure DailyRecord where
  starts : List Int
  stops : List Int
  memos : List String
deriving Repr, DecidableEq

/-- The Records mapping (date key → daily record), from types.ts.  A JS
object with string keys is an insertion-ordered association list. -/
abbrev Records := List (String × DailyRecord)

/-- A parsed JSON document, the shapes produced by serialising the records
slice: strings, arrays, objects. -/
inductive Json where
  | str (s : String)
  | arr (xs : List Json)
  | obj (fields : List (String × Json))

/-- A JavaScript value produced by `JSON.parse` with the re-hydrating
reviver: JSON shapes plus `Date` objects.  `date none` is an Invalid Date
(the result of `dayjs(v).toDate()` on unparsable input). -/
inductive JsValue where
  | str (s : String)
  | date (t : Option Int)
  | arr (xs : List JsValue)
  | obj (fields : List (String × JsValue))

/-- The external `Date` ⇄ string codec: `enc` models the ISO serialisation
done by `JSON.stringify` on a `Date`, `dec` models `dayjs(s).toDate()`,
with `none` standing for an Invalid Date result. -/
structure DateCodec where
  enc : Int → String
  dec : String → Option Int

/-- The reviver passed to `JSON.parse` in `setTransform` (store.ts):
`(key, value) => key === 'starts' || key === 'stops'
  ? (value as string[]).map(v => dayjs(v).toDate()) : value`.
On a `starts`/`stops` key the value is mapped elementwise: a string element
is parsed by dayjs (possibly to an Invalid Date); a non-string element is
also given to dayjs, which yields an Invalid Date.  If the value is not an
array, `.map` is not a function and the whole parse throws (`none`). -/
def reviveFn (c : DateCodec) (key : String) (v : JsValue) : Option JsValue :=
  if key = "starts" ∨ key = "stops" then
    match v with
    | .arr xs =>
      some (.arr (xs.map fun x =>
        match x with
        | .str s => .date (c.dec s)
        | _ => .date none))
    | _ => none
  else
    some v

mutual

/-- `JSON.parse(text, reviver)`: bottom-up internalisation of the parsed
tree.  Children are revived first; the reviver is applied to each object
member with its key (array elements also get a reviver call, with the
decimal index as key — no decimal digit string equals "starts" or "stops",
so that call is the identity and is elided here). -/
def walk (c : DateCodec) : Json → Option JsValue
  | .str s => some (.str s)
  | .arr xs => do
    let ys ← walkElems c xs
    pure (.arr ys)
  | .obj fs => do
    let gs ← walkFields c fs
    pure (.obj gs)

/-- Revive the elements of an array node. -/
def walkElems (c : DateCodec) : List Json → Option (List JsValue)
  | [] => some []
  | x :: xs => do
    let v ← walk c x
    let vs ← walkElems c xs
    pure (v :: vs)

/-- Revive the members of an object node, applying the reviver to each
member with its key. -/
def walkFields (c : DateCodec) :
    List (String × Json) → Option (List (String × JsValue))
  | [] => some []
  | (k, x) :: fs => do
    let v ← walk c x
    let v' ← reviveFn c k v
    let rest ← walkFields c fs
    pure ((k, v') :: rest)

end

/-- The outbound half of `setTransform` for the `records` slice:
`JSON.parse(outboundState, reviver)`.  The reviver is finally applied at
the root with the empty key (identity here, since `"" ≠ "starts"/"stops"`). -/
def deserializeRecords (c : DateCodec) (j : Json) : Option JsValue := do
  let v ← walk c j
  reviveFn c "" v

/-- `JSON.stringify` of one daily record: `Date` elements become their ISO
string form via the codec; memos stay strings. -/
def serializeDaily (c : DateCodec) (r : DailyRecord) : Json :=
  .obj [("starts", .arr (r.starts.map fun t => .str (c.enc t))),
        ("stops", .arr (r.stops.map fun t => .str (c.enc t))),
        ("memos", .arr (r.memos.map .str))]

/-- The inbound half of `setTransform` for the `records` slice:
`JSON.stringify(inboundState)` where `inboundState` is the records slice
state `{ records: <Records> }`. -/
def serializeRecords (c : DateCodec) (R : Records) : Json :=
  .obj [("records", .obj (R.map fun kr => (kr.1, serializeDaily c kr.2)))]

/-- The expected deserialisation result: the original records slice with
every timestamp a (valid) `Date`. -/
def embedDaily (r : DailyRecord) : JsValue :=
  .obj [("starts", .arr (r.starts.map fun t => .date (some t))),
        ("stops", .arr (r.stops.map fun t => .date (some t))),
        ("memos", .arr (r.memos.map .str))]

/-- The records slice state embedded into `JsValue`. -/
def embedRecords (R : Records) : JsValue :=
  .obj [("records", .obj (R.map fun kr => (kr.1, embedDaily kr.2)))]

/-- A daily record in its stored, textual form: every timestamp a string. -/
structure RawDaily where
  starts : List String
  stops : List String
  memos : List String

/-- A stored records blob: arbitrary textual daily records under date keys. -/
def dailyBlob (d : RawDaily) : Json :=
  .obj [("starts", .arr (d.starts.map .str)),
        ("stops", .arr (d.stops.map .str)),
        ("memos", .arr (d.memos.map .str))]

/-- A stored records-slice blob. -/
def recordsBlob (days : List (String × RawDaily)) : Json :=
  .obj [("records", .obj (days.map fun kd => (kd.1, dailyBlob kd.2)))]

/-- The re-hydrated form of a stored daily record: `starts`/`stops` parsed
elementwise by the codec, memos untouched. -/
def revivedDaily (c : DateCodec) (d : RawDaily) : JsValue :=
  .obj [("starts", .arr (d.starts.map fun s => .date (c.dec s))),
        ("stops", .arr (d.stops.map fun s => .date (c.dec s))),
        ("memos", .arr (d.memos.map .str))]

/-- A concrete invertible date codec used by witnesses: a non-negative
timestamp `t` is stored as `t` letters `a`; a negative one as a leading
`b` followed by `-t` letters `a`.  Any other string fails to parse. -/
def unaryEnc (t : Int) : String :=
  if t < 0 then String.mk ('b' :: List.replicate t.natAbs 'a')
  else String.mk (List.replicate t.natAbs 'a')

/-- Decoder of the witness codec. -/
def unaryDec (s : String) : Option Int :=
  if s.data.all (· = 'a') then some (s.data.length : Int)
  else if s.data.head? = some 'b' ∧ s.data.tail.all (· = 'a') then
    some (-(s.data.tail.length : Int))
  else none

/-- The witness codec. -/
def unaryCodec : DateCodec := ⟨unaryEnc, unaryDec⟩

/-- The stored, textual form of a daily record after serialisation by a
codec: timestamps encoded elementwise. -/
def rawOfDaily (c : DateCodec) (r : DailyRecord) : RawDaily :=
  ⟨r.starts.map c.enc, r.stops.map c.enc, r.memos⟩

--
-- Latest-session derivation
--

/-- The derived latest session of a day (spec §3): latest start, latest
stop (only when the last session is closed), latest memo, break length. -/
structure LatestSession where
  start : Option Int
  stop : Option Int
  memo : String
  breakTimeLengthMin : Option Nat
deriving Repr, DecidableEq

/-- Modelled from the spec: `getLatestOf` lives in src/state/ducks/records,
which is not among the provided sources (only its callers are).  Spec §4.1:
a `null` record yields `{start: null, stop: null, memo: '', breakTimeLengthMin:
default ?? null}`; otherwise `start` is the last element of `starts` (or
`null`), `stop` is the last element of `stops` only if
`stops.length >= starts.length` (else `null`, an open session), `memo` is the
last element of `memos` (or `''`), with the stated edge case that a record
with empty `starts` but non-empty `stops` is treated as
`start = null, stop = null` (never show a stop without a matching start).
The `DailyRecord` type (types.ts) carries no per-day break-length override
field, so `breakTimeLengthMin` is the caller-supplied default. -/
def getLatestOf (record : Option DailyRecord)
    (defaultBreakTimeLength : Option Nat := none) : LatestSession :=
  match record with
  | none => ⟨none, none, "", defaultBreakTimeLength⟩
  | some r =>
    if r.starts = [] ∧ r.stops ≠ [] then
      ⟨none, none, (r.memos.getLast?).getD "", defaultBreakTimeLength⟩
    else
      ⟨r.starts.getLast?,
       if r.starts.length ≤ r.stops.length then r.stops.getLast? else none,
       (r.memos.getLast?).getD "", defaultBreakTimeLength⟩

--
-- Calendar and formatting helpers
--

/-- A calendar date (year, month 1–12, day 1–31), the value a `Dayjs`
carries in the exporters. -/
structure YMD where
  year : Nat
  month : Nat
  day : Nat
deriving Repr, DecidableEq

/-- Gregorian leap-year rule (dayjs `daysInMonth` is backed by it). -/
def isLeapYear (y : Nat) : Bool :=
  (y % 4 == 0 && y % 100 != 0) || y % 400 == 0

/-- `month.daysInMonth()` of dayjs: days in the given month of the given
year. -/
def daysInMonth (y m : Nat) : Nat :=
  if m = 2 then (if isLeapYear y then 29 else 28)
  else if m = 4 ∨ m = 6 ∨ m = 9 ∨ m = 11 then 30
  else 31

/-- `getDaysInMonth` (List component, identically in
src/implementations/utilities): `Array.from(Array(month.daysInMonth()),
(_, i) => dayjs(month).set('date', i + 1))`. -/
def getDaysInMonth (month : YMD) : List YMD :=
  (List.range (daysInMonth month.year month.month)).map fun i =>
    ⟨month.year, month.month, i + 1⟩

/-- Left-pad a decimal numeral with zeros to the given width (the dayjs
`YYYY`/`MM`/`DD`/`HH`/`mm` tokens). -/
def padNum (w n : Nat) : String :=
  let s := Nat.repr n
  if s.length < w then String.mk (List.replicate (w - s.length) '0') ++ s else s

/-- `makeRecordKey` (types.ts): `dayjs(date).format('YYYYMMDD')`. -/
def makeRecordKey (d : YMD) : String :=
  padNum 4 d.year ++ padNum 2 d.month ++ padNum 2 d.day

/-- `date.format('YYYY-MM-DD')`. -/
def formatYMD (d : YMD) : String :=
  padNum 4 d.year ++ "-" ++ padNum 2 d.month ++ "-" ++ padNum 2 d.day

/-- `dayjs(t).format('HH:mm')` on an epoch-millisecond timestamp, local
time modelled as UTC: hour and minute of day by floor division. -/
def formatHHmm (t : Int) : String :=
  padNum 2 ((Int.ediv t 3600000).emod 24).toNat ++ ":"
    ++ padNum 2 ((Int.ediv t 60000).emod 60).toNat

/-- `latest.start !== null ? dayjs(latest.start).format('HH:mm') : ''`. -/
def optTimeField : Option Int → String
  | some t => formatHHmm t
  | none => ""

/-- JS `Array.prototype.join(sep)`. -/
def arrayJoin (sep : String) : List String → String
  | [] => ""
  | [x] => x
  | x :: xs => x ++ sep ++ arrayJoin sep xs

/-- The row builder both exporters share verbatim:
`columns.map(column => `"${column}"`).join(',')`. -/
def toCsvRow (columns : List String) : String :=
  arrayJoin "," (columns.map fun column => "\"" ++ column ++ "\"")

/-- The break-length rendering of formatter.ts:
`dayjs().hour(Math.floor(b / 60)).minute(b % 60).format('HH:mm')`.
Setting an hour ≥ 24 on a dayjs value rolls over into following days, so
the displayed hour is the set hour modulo 24. -/
def formatBreak (b : Nat) : String :=
  padNum 2 (b / 60 % 24) ++ ":" ++ padNum 2 (b % 60)

/-- The break-length column of formatter.ts: empty unless
`latest.breakTimeLengthMin !== null && latest.start !== null &&
latest.stop !== null`. -/
def breakFieldOf (latest : LatestSession) : String :=
  match latest.breakTimeLengthMin, latest.start, latest.stop with
  | some b, some _, some _ => formatBreak b
  | _, _, _ => ""

--
-- Exporters
--

/-- `formatSpecifiedMonthRecordsAsCsvForMail` (formatter.ts): one 5-column
quoted CSV row per day of the month of `firstDayOfMonth`. -/
def formatSpecifiedMonthRecordsAsCsvForMail (firstDayOfMonth : YMD)
    (records : Records) (defaultBreakTimeLength : Option Nat) : List String :=
  (getDaysInMonth firstDayOfMonth).map fun date =>
    let key := makeRecordKey date
    let record := List.lookup key records
    let latest := getLatestOf record defaultBreakTimeLength
    let breakTimeLength := breakFieldOf latest
    toCsvRow [formatYMD date, optTimeField latest.start,
      optTimeField latest.stop, latest.memo, breakTimeLength]

/-- One 4-column body line of `createMailToUri` (List component). -/
def mailBodyLine (date : YMD) (records : Records) : String :=
  let key := makeRecordKey date
  let record := List.lookup key records
  let latest := getLatestOf record
  toCsvRow [formatYMD date, optTimeField latest.start,
    optTimeField latest.stop, latest.memo]

/-- The `bodyLines` of `createMailToUri`: one 4-column row per day. -/
def mailBodyLines (firstDayOfMonth : YMD) (records : Records) : List String :=
  (getDaysInMonth firstDayOfMonth).map fun date => mailBodyLine date records

/-- dayjs `'ll'` localized format in the default en locale: `MMM D, YYYY`. -/
def monthAbbr : Nat → String
  | 1 => "Jan" | 2 => "Feb" | 3 => "Mar" | 4 => "Apr"
  | 5 => "May" | 6 => "Jun" | 7 => "Jul" | 8 => "Aug"
  | 9 => "Sep" | 10 => "Oct" | 11 => "Nov" | 12 => "Dec"
  | _ => ""

/-- `date.format('ll')` in the en locale. -/
def formatLL (d : YMD) : String :=
  monthAbbr d.month ++ " " ++ Nat.repr d.day ++ ", " ++ padNum 4 d.year

/-- `firstDayOfMonth.endOf('month')`, date part: the last day of the month. -/
def endOfMonth (d : YMD) : YMD :=
  ⟨d.year, d.month, daysInMonth d.year d.month⟩

/-- The characters `encodeURIComponent` leaves unescaped:
`A–Z a–z 0–9 - _ . ! ~ * ' ( )`. -/
def isUriUnreserved (ch : Char) : Bool :=
  ch.isAlphanum || [45, 95, 46, 33, 126, 42, 39, 40, 41].contains ch.toNat

/-- UTF-8 encoding of one scalar value. -/
def utf8Bytes (ch : Char) : List Nat :=
  let n := ch.toNat
  if n < 128 then [n]
  else if n < 2048 then [192 + n / 64, 128 + n % 64]
  else if n < 65536 then [224 + n / 4096, 128 + n / 64 % 64, 128 + n % 64]
  else [240 + n / 262144, 128 + n / 4096 % 64, 128 + n / 64 % 64, 128 + n % 64]

/-- Uppercase hexadecimal digit. -/
def hexDigit (n : Nat) : Char :=
  if n < 10 then Char.ofNat (48 + n) else Char.ofNat (55 + n)

/-- `%HH` escape of one byte. -/
def percentByte (b : Nat) : List Char :=
  ['%', hexDigit (b / 16), hexDigit (b % 16)]

/-- JS `encodeURIComponent`: unreserved characters kept, every other
character percent-encoded bytewise in UTF-8. -/
def encodeURIComponent (s : String) : String :=
  String.mk (s.data.flatMap fun ch =>
    if isUriUnreserved ch then [ch] else (utf8Bytes ch).flatMap percentByte)

/-- `createMailToUri` (List component): mailto URI with percent-encoded
address, subject (the month's date range in `ll` format) and body (the
4-column rows joined with CRLF). -/
def createMailToUri (firstDayOfMonth : YMD) (records : Records)
    (mailAddress : String) : String :=
  let bodyLines := mailBodyLines firstDayOfMonth records
  let hfieldsMap : List (String × String) :=
    [("subject", formatLL firstDayOfMonth ++ " - "
        ++ formatLL (endOfMonth firstDayOfMonth)),
     ("body", arrayJoin "\r\n" bodyLines)]
  let hfields := hfieldsMap.map fun kv => kv.1 ++ "=" ++ encodeURIComponent kv.2
  "mailto:" ++ encodeURIComponent mailAddress ++ "?" ++ arrayJoin "&" hfields

--
-- Quoted-CSV well-formedness
--

/-- States of the quoted-CSV record scanner: before a field's opening
quote, inside a quoted field, or just after a quote inside/closing a
field. -/
inductive CsvSt where
  | expectOpen
  | inField
  | afterQuote

/-- Scanner for `"field"("field")*` records with `""` as the escaped
quote: accepts exactly the well-formed all-quoted CSV records. -/
def csvRun : CsvSt → List Char → Bool
  | .expectOpen, [] => false
  | .expectOpen, ch :: rest => if ch = '"' then csvRun .inField rest else false
  | .inField, [] => false
  | .inField, ch :: rest =>
    if ch = '"' then csvRun .afterQuote rest else csvRun .inField rest
  | .afterQuote, [] => true
  | .afterQuote, ch :: rest =>
    if ch = '"' then csvRun .inField rest
    else if ch = ',' then csvRun .expectOpen rest
    else false

/-- A string is a well-formed all-quoted CSV record. -/
def csvRowWellFormed (s : String) : Bool :=
  csvRun .expectOpen s.data

/-- Parity offset of a scanner state: the number of quotes consumed so far
is even in `expectOpen`/`afterQuote` and odd in `inField`. -/
def csvStOffset : CsvSt → Nat
  | .inField => 1
  | _ => 0

--
-- Persistence versioning
--

/-- The persisted envelope: the schema version stamped by redux-persist
(`_persist.version`) next to the stored records. -/
structure PersistedBlob where
  version : Int
  records : Records
deriving Repr, DecidableEq

/-- The versioning-relevant part of a redux-persist configuration: the
schema version and the optional migration function. -/
structure PersistSetup where
  version : Int
  migrateFn : Option (PersistedBlob → Int → PersistedBlob)

/-- `persistConfig` of store.ts: `version: 1`, no `migrate` entry. -/
def persistSetup : PersistSetup := ⟨1, none⟩

/-- Modelled from the spec: redux-persist (a library dependency, not part
of src/) writes the configured schema version into the persisted blob's
`_persist` section on every persist. -/
def persistOut (setup : PersistSetup) (R : Records) : PersistedBlob :=
  ⟨setup.version, R⟩

/-- Modelled from the spec: on load redux-persist applies the configured
migration `config.migrate` to the restored state with the configured
version; when no migration is configured the default is the identity
migration. -/
def migrateStep (setup : PersistSetup) (b : PersistedBlob) : PersistedBlob :=
  match setup.migrateFn with
  | some f => f b setup.version
  | none => b

/-- The load path: the restored blob passes through the migration step. -/
def loadPersisted (setup : PersistSetup) (b : PersistedBlob) : PersistedBlob :=
  migrateStep setup b

end WTA

namespace WTA

--
-- Supporting lemmas for the persistence transform
--

/-- Reviving a string leaf is the identity. -/
theorem walk_str (c : DateCodec) (s : String) : walk c (.str s) = some (.str s) := by
  simp [walk]

/-- Reviving the elements of an array of strings is the identity (the
reviver itself is applied by the holder, not here). -/
theorem walkElems_strs (c : DateCodec) (ss : List String) :
    walkElems c (ss.map Json.str) = some (ss.map JsValue.str) := by
  induction ss with
  | nil => simp [walkElems]
  | cons s ss ih => simp [walkElems, walk, ih]

/-- The reviver on a `starts` member parses every element with dayjs. -/
theorem reviveFn_starts (c : DateCodec) (ss : List String) :
    reviveFn c "starts" (.arr (ss.map .str))
      = some (.arr (ss.map fun s => .date (c.dec s))) := by
  simp [reviveFn, List.map_map]

/-- The reviver on a `stops` member parses every element with dayjs. -/
theorem reviveFn_stops (c : DateCodec) (ss : List String) :
    reviveFn c "stops" (.arr (ss.map .str))
      = some (.arr (ss.map fun s => .date (c.dec s))) := by
  simp [reviveFn, List.map_map]

/-- The reviver on any other key is the identity. -/
theorem reviveFn_other (c : DateCodec) (k : String) (v : JsValue)
    (h1 : k ≠ "starts") (h2 : k ≠ "stops") : reviveFn c k v = some v := by
  simp [reviveFn, h1, h2]

/-- Re-hydrating one stored daily record: `starts`/`stops` elements are
parsed, `memos` elements stay strings. -/
theorem walk_dailyBlob (c : DateCodec) (d : RawDaily) :
    walk c (dailyBlob d) = some (revivedDaily c d) := by
  simp [walk, dailyBlob, revivedDaily, walkFields, walkElems_strs,
    reviveFn_starts, reviveFn_stops,
    reviveFn_other c "memos" _ (by decide) (by decide)]

/-- Deserialisation of any stored records-slice blob whose date keys are not
literally `starts`/`stops`: the `starts` and `stops` arrays are re-hydrated
elementwise through the date parser and nothing else is touched. -/
theorem rehydrate_general (c : DateCodec) (days : List (String × RawDaily))
    (hk : ∀ kd ∈ days, kd.1 ≠ "starts" ∧ kd.1 ≠ "stops") :
    deserializeRecords c (recordsBlob days)
      = some (.obj [("records",
          .obj (days.map fun kd => (kd.1, revivedDaily c kd.2)))]) := by
  have hfields : walkFields c (days.map fun kd => (kd.1, dailyBlob kd.2))
      = some (days.map fun kd => (kd.1, revivedDaily c kd.2)) := by
    induction days with
    | nil => simp [walkFields]
    | cons kd days ih =>
      have h := hk kd (by simp)
      simp [walkFields, walk_dailyBlob, reviveFn_other c kd.1 _ h.1 h.2,
        ih fun x hx => hk x (by simp [hx])]
  simp [deserializeRecords, recordsBlob, walk, walkFields, hfields,
    reviveFn_other c "records" _ (by decide) (by decide),
    reviveFn_other c "" _ (by decide) (by decide)]

/-- Serialising the records slice produces the corresponding stored blob. -/
theorem serializeRecords_eq_blob (c : DateCodec) (R : Records) :
    serializeRecords c R = recordsBlob (R.map fun kr => (kr.1, rawOfDaily c kr.2)) := by
  simp [serializeRecords, recordsBlob, serializeDaily, dailyBlob, rawOfDaily,
    List.map_map, Function.comp]

/-- If the codec round-trips, re-hydrating a serialised daily record gives
back the original with valid dates. -/
theorem revivedDaily_rawOf (c : DateCodec) (r : DailyRecord)
    (hc : ∀ t, c.dec (c.enc t) = some t) :
    revivedDaily c (rawOfDaily c r) = embedDaily r := by
  simp [revivedDaily, rawOfDaily, embedDaily, List.map_map, Function.comp, hc]

/-- The witness codec round-trips every timestamp. -/
theorem unary_round (t : Int) : unaryDec (unaryEnc t) = some t := by
  by_cases h : t < 0
  · have hdata : (unaryEnc t).data = 'b' :: List.replicate t.natAbs 'a' := by
      simp [unaryEnc, h]
    have hnz : t.natAbs ≠ 0 := by omega
    simp [unaryDec, hdata, List.all_eq_true, List.mem_replicate, hnz]
    rw [abs_of_neg h, neg_neg]
  · have hdata : (unaryEnc t).data = List.replicate t.natAbs 'a' := by
      simp [unaryEnc, h]
    simp [unaryDec, hdata, List.all_eq_true, List.mem_replicate]
    omega

--
-- Claim theorems: persistence transform
--

/-- C1: for every Records mapping (whose keys are date keys, in particular
never the field names `starts`/`stops`), deserialising the serialisation of
the records slice yields the original mapping deep-equally: every `Date` in
`starts`/`stops` is reconstructed as an equal timestamp and every memo is
preserved as the same plain string.  The `Date`⇄ISO-string codec of the
JS runtime and dayjs is abstracted as `c` with its round-trip law as a
hypothesis. -/
theorem deserialize_serialize_roundtrip (c : DateCodec) (R : Records)
    (hc : ∀ t, c.dec (c.enc t) = some t)
    (hk : ∀ kd ∈ R, kd.1 ≠ "starts" ∧ kd.1 ≠ "stops") :
    deserializeRecords c (serializeRecords c R) = some (embedRecords R) := by
  rw [serializeRecords_eq_blob]
  rw [rehydrate_general c _ (by
    intro kd hkd
    simp only [List.mem_map] at hkd
    obtain ⟨kr, hkr, rfl⟩ := hkd
    exact hk kr hkr)]
  have hmap : (R.map fun kr => (kr.1, rawOfDaily c kr.2)).map
        (fun kd => (kd.1, revivedDaily c kd.2))
      = R.map fun kr => (kr.1, embedDaily kr.2) := by
    rw [List.map_map]
    exact List.map_congr_left fun kr _ => by
      simp [Function.comp, revivedDaily_rawOf c kr.2 hc]
  rw [hmap]
  rfl

/-- C1 witness: the round trip at a concrete codec and mapping. -/
theorem deserialize_serialize_roundtrip_witness :
    (∀ t, unaryCodec.dec (unaryCodec.enc t) = some t)
    ∧ deserializeRecords unaryCodec
        (serializeRecords unaryCodec [("20240101", ⟨[9], [17], ["worked"]⟩)])
      = some (embedRecords [("20240101", ⟨[9], [17], ["worked"]⟩)]) :=
  ⟨fun t => unary_round t,
   deserialize_serialize_roundtrip unaryCodec _ (fun t => unary_round t)
     (by decide)⟩

/-- C2: deserialising any stored records blob (date keys being date keys,
not the literal field names) re-hydrates every element of `starts` and
`stops` through the date parser and re-hydrates nothing else: every
`memos` element comes back as the same plain string. -/
theorem deserialize_rehydrates_starts_stops_only (c : DateCodec)
    (days : List (String × RawDaily))
    (hk : ∀ kd ∈ days, kd.1 ≠ "starts" ∧ kd.1 ≠ "stops") :
    deserializeRecords c (recordsBlob days)
      = some (.obj [("records",
          .obj (days.map fun kd =>
            (kd.1, .obj [("starts", .arr (kd.2.starts.map fun s => .date (c.dec s))),
                         ("stops", .arr (kd.2.stops.map fun s => .date (c.dec s))),
                         ("memos", .arr (kd.2.memos.map .str))])))]) :=
  rehydrate_general c days hk

/-- C2 witness: re-hydration at a concrete blob, with the memo untouched. -/
theorem deserialize_rehydrates_starts_stops_only_witness :
    (∀ kd ∈ [("20240102", RawDaily.mk ["aa"] [] ["memo text"])],
        kd.1 ≠ "starts" ∧ kd.1 ≠ "stops")
    ∧ deserializeRecords unaryCodec
        (recordsBlob [("20240102", ⟨["aa"], [], ["memo text"]⟩)])
      = some (.obj [("records",
          .obj [("20240102",
            .obj [("starts", .arr [.date (some 2)]),
                  ("stops", .arr []),
                  ("memos", .arr [.str "memo text"])])])]) :=
  ⟨by decide,
   by
    rw [deserialize_rehydrates_starts_stops_only unaryCodec _ (by decide)]
    rfl⟩

/-- C3 counterexample: at a concrete stored blob whose `starts` array holds
the unparsable string "x", the deserialise call succeeds (returns a value,
raising no error — the code has no `PersistenceCorruptError` at all) and the
result contains an Invalid Date (`.date none`), i.e. an invalid timestamp. -/
theorem unparsable_date_no_error_cex :
    deserializeRecords unaryCodec (recordsBlob [("20240101", ⟨["x"], [], []⟩)])
      = some (.obj [("records",
          .obj [("20240101",
            .obj [("starts", .arr [.date none]),
                  ("stops", .arr []),
                  ("memos", .arr [])])])])
    ∧ (deserializeRecords unaryCodec
        (recordsBlob [("20240101", ⟨["x"], [], []⟩)])).isSome = true := by
  constructor
  · rfl
  · rfl

/-- C3 amended: on a `starts` element that does not parse as a date, the
deserialise call does not fail: `dayjs(v).toDate()` yields an Invalid Date,
which is silently stored in the result as the timestamp value. -/
theorem unparsable_date_yields_invalid_date (c : DateCodec) (s : String)
    (h : c.dec s = none) :
    deserializeRecords c (recordsBlob [("20240101", ⟨[s], [], []⟩)])
      = some (.obj [("records",
          .obj [("20240101",
            .obj [("starts", .arr [.date none]),
                  ("stops", .arr []),
                  ("memos", .arr [])])])]) := by
  rw [rehydrate_general c _ (by
    intro kd hkd
    rw [List.mem_singleton] at hkd
    have hfst : kd.1 = "20240101" := by rw [hkd]
    rw [hfst]
    exact ⟨by decide, by decide⟩)]
  simp [revivedDaily, h]

/-- C3 amended witness: the concrete unparsable string "x". -/
theorem unparsable_date_yields_invalid_date_witness :
    unaryCodec.dec "x" = none
    ∧ deserializeRecords unaryCodec (recordsBlob [("20240101", ⟨["x"], [], []⟩)])
      = some (.obj [("records",
          .obj [("20240101",
            .obj [("starts", .arr [.date none]),
                  ("stops", .arr []),
                  ("memos", .arr [])])])]) :=
  ⟨by decide, unparsable_date_yields_invalid_date unaryCodec "x" (by decide)⟩

--
-- Supporting lemmas: strings, lookups, CSV scanning
--

/-- Appending strings appends their character data. -/
theorem strData_append (a b : String) : (a ++ b).data = a.data ++ b.data := by
  cases a; cases b; rfl

/-- String append is associative. -/
theorem strAppend_assoc (a b c : String) : a ++ b ++ c = a ++ (b ++ c) := by
  cases a; cases b; cases c
  show String.mk _ = String.mk _
  rw [List.append_assoc]

/-- Merge a comma and a following quote into one literal. -/
theorem comma_quote (x : String) : "," ++ ("\"" ++ x) = ",\"" ++ x := by
  rw [← strAppend_assoc]
  rfl

/-- Merge a closing quote, comma and opening quote into one literal. -/
theorem quote_comma_quote (x : String) : "\"," ++ ("\"" ++ x) = "\",\"" ++ x := by
  rw [← strAppend_assoc]
  rfl

/-- A five-column quoted CSV row is the corresponding four-column row with
the fifth quoted field appended. -/
theorem toCsvRow_five (a b c d e : String) :
    toCsvRow [a, b, c, d, e] = toCsvRow [a, b, c, d] ++ ",\"" ++ e ++ "\"" := by
  simp [toCsvRow, arrayJoin, strAppend_assoc, comma_quote, quote_comma_quote]

/-- Association-list lookup is invariant under permutation when the keys
are distinct (a JS object's enumeration order does not affect `records[key]`). -/
theorem lookup_perm (k : String) (R R' : Records) (h : R.Perm R')
    (nd : (R.map Prod.fst).Nodup) : List.lookup k R = List.lookup k R' := by
  induction h with
  | nil => rfl
  | cons x h ih =>
    obtain ⟨xk, xv⟩ := x
    simp only [List.lookup]
    cases hkx : (k == xk)
    · simp only [List.map, List.nodup_cons] at nd
      exact ih nd.2
    · rfl
  | swap x y l =>
    obtain ⟨xk, xv⟩ := x
    obtain ⟨yk, yv⟩ := y
    simp only [List.map, List.nodup_cons, List.mem_cons] at nd
    have hne : yk ≠ xk := fun e => nd.1 (Or.inl e)
    simp only [List.lookup]
    cases hky : (k == yk) <;> cases hkx : (k == xk) <;> simp [hky, hkx]
    exact absurd ((beq_iff_eq.mp hky).symm.trans (beq_iff_eq.mp hkx)) hne
  | trans h12 h23 ih12 ih23 =>
    rw [ih12 nd, ih23 (((h12.map Prod.fst).nodup_iff).mp nd)]

/-- The start/stop/memo projections of the derived latest session do not
depend on the caller-supplied default break length. -/
theorem getLatestOf_default_fields (rec : Option DailyRecord) (d : Option Nat) :
    (getLatestOf rec d).start = (getLatestOf rec).start
    ∧ (getLatestOf rec d).stop = (getLatestOf rec).stop
    ∧ (getLatestOf rec d).memo = (getLatestOf rec).memo := by
  cases rec with
  | none => simp [getLatestOf]
  | some r =>
    by_cases he : r.starts = [] ∧ r.stops ≠ [] <;> simp [getLatestOf, he]

/-- Merge the query marker with the first field name. -/
theorem lit_question_subject (x : String) :
    "?" ++ ("subject=" ++ x) = "?subject=" ++ x := by
  rw [← strAppend_assoc]
  rfl

/-- Merge the field separator with the second field name. -/
theorem lit_amp_body (x : String) :
    "&" ++ ("body=" ++ x) = "&body=" ++ x := by
  rw [← strAppend_assoc]
  rfl

/-- Scanning a quote-free field body consumes it and the closing quote. -/
theorem csvRun_inField_no_quote (l : List Char) (rest : List Char)
    (h : '"' ∉ l) :
    csvRun .inField (l ++ '"' :: rest) = csvRun .afterQuote rest := by
  induction l with
  | nil => simp [csvRun]
  | cons c l ih =>
    have hc : ¬(c = '"') := fun e => h (e ▸ List.mem_cons_self c l)
    simp only [List.cons_append, csvRun, if_neg hc]
    exact ih fun hm => h (List.mem_cons_of_mem c hm)

/-- Unfolding a multi-column row into its first field and the rest. -/
theorem toCsvRow_cons_cons (a b : String) (cols : List String) :
    toCsvRow (a :: b :: cols)
      = ("\"" ++ a ++ "\"") ++ "," ++ toCsvRow (b :: cols) := rfl

/-- A quoted CSV row over fields containing no double quote is a
well-formed record. -/
theorem csvRow_wellformed_of_no_quote (cols : List String)
    (hne : cols ≠ []) (h : ∀ s ∈ cols, '"' ∉ s.data) :
    csvRowWellFormed (toCsvRow cols) = true := by
  induction cols with
  | nil => exact absurd rfl hne
  | cons c cols ih =>
    cases cols with
    | nil =>
      have hdata : (toCsvRow [c]).data = '"' :: (c.data ++ '"' :: []) := by
        show (("\"" ++ c ++ "\"" : String)).data = _
        simp [strData_append]
      rw [csvRowWellFormed, hdata]
      simp only [csvRun, if_pos rfl]
      rw [csvRun_inField_no_quote c.data [] (h c (List.mem_singleton.mpr rfl))]
      rfl
    | cons c' cols' =>
      have hdata : (toCsvRow (c :: c' :: cols')).data
          = '"' :: (c.data ++ '"' :: ',' :: (toCsvRow (c' :: cols')).data) := by
        rw [toCsvRow_cons_cons]
        simp [strData_append]
      rw [csvRowWellFormed, hdata]
      simp only [csvRun, if_pos rfl]
      rw [csvRun_inField_no_quote c.data _ (h c (List.mem_cons_self c _))]
      simp only [csvRun]
      norm_num
      exact ih (by simp) fun s hs => h s (List.mem_cons_of_mem c hs)

/-- The scanner accepts only inputs whose quote count matches the state
parity: any accepted record contains an even number of double quotes when
started in `expectOpen`. -/
theorem csvRun_quote_parity (l : List Char) : ∀ st : CsvSt,
    csvRun st l = true → (l.count '"' + csvStOffset st) % 2 = 0 := by
  induction l with
  | nil =>
    intro st h
    cases st with
    | expectOpen => simp [csvRun] at h
    | inField => simp [csvRun] at h
    | afterQuote => simp [csvStOffset]
  | cons c rest ih =>
    intro st h
    cases st with
    | expectOpen =>
      by_cases hc : c = '"'
      · subst hc
        simp only [csvRun, if_pos rfl] at h
        have := ih .inField h
        simp only [csvStOffset] at this ⊢
        simp [List.count_cons]
        omega
      · simp [csvRun, hc] at h
    | inField =>
      by_cases hc : c = '"'
      · subst hc
        simp only [csvRun, if_pos rfl] at h
        have := ih .afterQuote h
        simp only [csvStOffset] at this ⊢
        simp [List.count_cons]
        omega
      · simp only [csvRun, if_neg hc] at h
        have := ih .inField h
        simp only [csvStOffset] at this ⊢
        simp [List.count_cons, hc]
        omega
    | afterQuote =>
      by_cases hc : c = '"'
      · subst hc
        simp only [csvRun, if_pos rfl] at h
        have := ih .inField h
        simp only [csvStOffset] at this ⊢
        simp [List.count_cons]
        omega
      · by_cases hc2 : c = ','
        · subst hc2
          simp [csvRun] at h
          have := ih .expectOpen h
          simp only [csvStOffset] at this ⊢
          simp [List.count_cons, hc]
          omega
        · simp [csvRun, hc, hc2] at h

/-- The character data of a single-column row. -/
theorem toCsvRow_single_data (c : String) :
    (toCsvRow [c]).data = '"' :: (c.data ++ '"' :: []) := by
  show (("\"" ++ c ++ "\"" : String)).data = _
  simp [strData_append]

/-- The character data of a multi-column row, first field split off. -/
theorem toCsvRow_cons_data (c c' : String) (cols : List String) :
    (toCsvRow (c :: c' :: cols)).data
      = '"' :: (c.data ++ '"' :: ',' :: (toCsvRow (c' :: cols)).data) := by
  rw [toCsvRow_cons_cons]
  simp [strData_append]

/-- A quoted row contains two wrapper quotes per column plus the quotes of
the raw field values themselves. -/
theorem count_quotes_toCsvRow (c : String) (cols : List String) :
    ((toCsvRow (c :: cols)).data.count '"')
      = 2 * (c :: cols).length + ((c :: cols).map fun s => s.data.count '"').sum := by
  induction cols generalizing c with
  | nil =>
    rw [toCsvRow_single_data]
    simp [List.count_cons, List.count_append]
    omega
  | cons c' cols ih =>
    rw [toCsvRow_cons_data]
    simp only [List.count_cons, List.count_append, ih c']
    simp [List.count_cons]
    omega

/-- A row whose other fields are free of double quotes and whose remaining
field contains an odd number of double quotes is never a well-formed
quoted-CSV record: the wrapper quotes contribute an even count, so the
total quote count is odd, and the scanner only accepts even counts. -/
theorem csvRow_odd_quotes_not_wellformed (pre post : List String) (m : String)
    (hqp : ∀ s ∈ pre ++ post, '"' ∉ s.data)
    (hodd : m.data.count '"' % 2 = 1) :
    csvRowWellFormed (toCsvRow (pre ++ m :: post)) = false := by
  cases hb : csvRowWellFormed (toCsvRow (pre ++ m :: post)) with
  | false => rfl
  | true =>
    exfalso
    have hpar := csvRun_quote_parity _ .expectOpen hb
    have hcons : ∃ c cols, pre ++ m :: post = c :: cols := by
      cases pre with
      | nil => exact ⟨m, post, rfl⟩
      | cons p ps => exact ⟨p, ps ++ m :: post, rfl⟩
    obtain ⟨c, cols, hcc⟩ := hcons
    rw [hcc] at hpar
    rw [count_quotes_toCsvRow c cols, ← hcc] at hpar
    have hzero : ∀ x ∈ (pre ++ post).map (fun s => s.data.count '"'), x = 0 := by
      intro x hx
      simp only [List.mem_map] at hx
      obtain ⟨s, hs, rfl⟩ := hx
      exact List.count_eq_zero.mpr (hqp s hs)
    have hsum : ((pre ++ m :: post).map fun s => s.data.count '"').sum
        = m.data.count '"' := by
      simp only [List.map_append, List.sum_append, List.map_cons, List.sum_cons]
      have h1 : (pre.map fun s => s.data.count '"').sum = 0 :=
        List.sum_eq_zero fun x hx => hzero x (by
          simp only [List.map_append, List.mem_append] at hx ⊢
          exact Or.inl hx)
      have h2 : (post.map fun s => s.data.count '"').sum = 0 :=
        List.sum_eq_zero fun x hx => hzero x (by
          simp only [List.map_append, List.mem_append] at hx ⊢
          exact Or.inr hx)
      omega
    rw [hsum] at hpar
    simp only [csvStOffset] at hpar
    omega

--
-- Claim theorems: derivation, exporters, versioning
--

/-- C4 counterexample: for the record with `starts = []`, `stops = [5]` we
have `stops.length ≥ starts.length` and the last element of `stops` is `5`,
yet the derived `stop` is `null` (the spec's own edge rule — never show a
stop without a matching start — overrides the length test), refuting the
claim that `stop` is the last element of `stops` whenever
`stops.length ≥ starts.length`. -/
theorem latest_stop_edge_case_cex :
    ([] : List Int).length ≤ [(5 : Int)].length
    ∧ ([(5 : Int)].getLast?) = some 5
    ∧ (getLatestOf (some ⟨[], [5], []⟩) none).stop = none := by
  refine ⟨by decide, rfl, ?_⟩
  rfl

/-- C4 amended: the derived `stop` is the last element of `stops` exactly
when `stops.length ≥ starts.length` and the record is not in the corrupted
starts-empty/stops-non-empty edge case (which yields `null`); consequently
a non-null `stop` implies `stops.length ≥ starts.length`. -/
theorem latest_stop_amended (r : DailyRecord) (d : Option Nat) :
    ((getLatestOf (some r) d).stop
      = if r.starts.length ≤ r.stops.length ∧ ¬(r.starts = [] ∧ r.stops ≠ [])
        then r.stops.getLast? else none)
    ∧ ((getLatestOf (some r) d).stop ≠ none → r.starts.length ≤ r.stops.length) := by
  constructor
  · by_cases he : r.starts = [] ∧ r.stops ≠ []
    · simp [getLatestOf, he]
    · by_cases hl : r.starts.length ≤ r.stops.length
      · simp [getLatestOf, he, hl]
      · simp [getLatestOf, he, hl]
  · intro h
    by_cases he : r.starts = [] ∧ r.stops ≠ []
    · simp [getLatestOf, he] at h
    · simp [getLatestOf, he] at h
      by_cases hl : r.starts.length ≤ r.stops.length
      · exact hl
      · simp [hl] at h

/-- C4 witness: the amended statement at a concrete closed session. -/
theorem latest_stop_amended_witness :
    ((getLatestOf (some ⟨[3], [4], ["m"]⟩) none).stop
      = if ([3] : List Int).length ≤ ([4] : List Int).length
          ∧ ¬(([3] : List Int) = [] ∧ ([4] : List Int) ≠ [])
        then ([4] : List Int).getLast? else none)
    ∧ ([3] : List Int).length ≤ ([4] : List Int).length :=
  ⟨(latest_stop_amended ⟨[3], [4], ["m"]⟩ none).1,
   (latest_stop_amended ⟨[3], [4], ["m"]⟩ none).2 (by decide)⟩

/-- C5: for every month and records mapping (with distinct keys), the CSV
exporter returns one row per calendar day in ascending day order — row `i`
is day `i+1`, built from the day's latest-session derivation as the five
quoted fields date, start, stop, memo, break length — its row count is the
days-in-month of that month and year (29 for February 2024, 28 for February
2023), and its output does not depend on the ordering of the mapping. -/
theorem csv_month_rows (y m : Nat) (R R' : Records) (br : Option Nat)
    (hperm : R.Perm R') (hnd : (R.map Prod.fst).Nodup) :
    formatSpecifiedMonthRecordsAsCsvForMail ⟨y, m, 1⟩ R br
      = (List.range (daysInMonth y m)).map (fun i =>
          toCsvRow [formatYMD ⟨y, m, i + 1⟩,
            optTimeField (getLatestOf (List.lookup (makeRecordKey ⟨y, m, i + 1⟩) R) br).start,
            optTimeField (getLatestOf (List.lookup (makeRecordKey ⟨y, m, i + 1⟩) R) br).stop,
            (getLatestOf (List.lookup (makeRecordKey ⟨y, m, i + 1⟩) R) br).memo,
            breakFieldOf (getLatestOf (List.lookup (makeRecordKey ⟨y, m, i + 1⟩) R) br)])
    ∧ (formatSpecifiedMonthRecordsAsCsvForMail ⟨y, m, 1⟩ R br).length = daysInMonth y m
    ∧ formatSpecifiedMonthRecordsAsCsvForMail ⟨y, m, 1⟩ R br
        = formatSpecifiedMonthRecordsAsCsvForMail ⟨y, m, 1⟩ R' br
    ∧ (formatSpecifiedMonthRecordsAsCsvForMail ⟨2024, 2, 1⟩ R br).length = 29
    ∧ (formatSpecifiedMonthRecordsAsCsvForMail ⟨2023, 2, 1⟩ R br).length = 28 := by
  refine ⟨?_, ?_, ?_, ?_, ?_⟩
  · simp [formatSpecifiedMonthRecordsAsCsvForMail, getDaysInMonth, List.map_map]
  · simp [formatSpecifiedMonthRecordsAsCsvForMail, getDaysInMonth]
  · unfold formatSpecifiedMonthRecordsAsCsvForMail
    exact List.map_congr_left fun date _ => by
      simp only []
      rw [lookup_perm (makeRecordKey date) R R' hperm hnd]
  · simp [formatSpecifiedMonthRecordsAsCsvForMail, getDaysInMonth]
    decide
  · simp [formatSpecifiedMonthRecordsAsCsvForMail, getDaysInMonth]
    decide

/-- C5 witness: a concrete two-day mapping and its reversal. -/
theorem csv_month_rows_witness :
    List.Perm [("20240201", DailyRecord.mk [0] [0] ["x"]), ("20240202", ⟨[], [], []⟩)]
      [("20240202", DailyRecord.mk [] [] []), ("20240201", ⟨[0], [0], ["x"]⟩)]
    ∧ (List.map Prod.fst
        [("20240201", DailyRecord.mk [0] [0] ["x"]), ("20240202", ⟨[], [], []⟩)]).Nodup
    ∧ (formatSpecifiedMonthRecordsAsCsvForMail ⟨2024, 2, 1⟩
        [("20240201", ⟨[0], [0], ["x"]⟩), ("20240202", ⟨[], [], []⟩)] none).length = 29 :=
  ⟨by decide, by decide,
   (csv_month_rows 2024 2
      [("20240201", ⟨[0], [0], ["x"]⟩), ("20240202", ⟨[], [], []⟩)]
      [("20240202", ⟨[], [], []⟩), ("20240201", ⟨[0], [0], ["x"]⟩)]
      none (by decide) (by decide)).2.2.2.1⟩

/-- C6: each 5-column CSV-export row is the corresponding 4-column mailto
body row (same per-day latest-session derivation) with the quoted break
length appended as a fifth field, so the mailto row equals the first four
columns of the CSV row for every day of the month. -/
theorem mailto_rows_refine_csv_rows (first : YMD) (R : Records) (br : Option Nat) :
    formatSpecifiedMonthRecordsAsCsvForMail first R br
      = (getDaysInMonth first).map (fun date =>
          mailBodyLine date R ++ ",\""
            ++ breakFieldOf (getLatestOf (List.lookup (makeRecordKey date) R) br)
            ++ "\"")
    ∧ mailBodyLines first R = (getDaysInMonth first).map fun date => mailBodyLine date R := by
  constructor
  · unfold formatSpecifiedMonthRecordsAsCsvForMail
    refine List.map_congr_left fun date _ => ?_
    simp only []
    rw [toCsvRow_five]
    have h := getLatestOf_default_fields (List.lookup (makeRecordKey date) R) br
    rw [mailBodyLine, h.1, h.2.1, h.2.2]
  · rfl

/-- C7: the mail export is a `mailto:` URI whose subject is the formatted
date range from the first through the last day of the month and whose body
is the 4-column rows joined with CRLF, with address, subject and body
percent-encoded. -/
theorem mailto_uri_structure (first : YMD) (R : Records) (addr : String) :
    createMailToUri first R addr
      = "mailto:" ++ encodeURIComponent addr ++ "?subject="
        ++ encodeURIComponent (formatLL first ++ " - " ++ formatLL (endOfMonth first))
        ++ "&body=" ++ encodeURIComponent (arrayJoin "\r\n" (mailBodyLines first R)) := by
  simp [createMailToUri, arrayJoin, strAppend_assoc, lit_question_subject, lit_amp_body]

/-- C8: the persisted blob carries the configured schema version (1), and
the load path applies the configured migration step — here the identity
migration, since `persistConfig` has no `migrate` entry — so the stored
records pass through unchanged for any stored version and user data is
never discarded. -/
theorem persist_versioning (R : Records) (b : PersistedBlob) :
    (persistOut persistSetup R).version = 1
    ∧ (persistOut persistSetup R).records = R
    ∧ loadPersisted persistSetup b = migrateStep persistSetup b
    ∧ migrateStep persistSetup b = b :=
  ⟨rfl, rfl, rfl, rfl⟩

/-- C9 counterexample: with a closed session and a break length of 1500
minutes, the claim's rendering (`hours = floor(1500/60)`) would be "25:00",
but the exported row renders "01:00": `dayjs().hour(25)` rolls over into
the next day and `HH` shows the hour modulo 24. -/
theorem break_field_rollover_cex :
    (formatSpecifiedMonthRecordsAsCsvForMail ⟨2024, 1, 1⟩
        [("20240101", ⟨[32400000], [61200000], []⟩)] (some 1500)).head?
      = some "\"2024-01-01\",\"09:00\",\"17:00\",\"\",\"01:00\""
    ∧ padNum 2 (1500 / 60) ++ ":" ++ padNum 2 (1500 % 60) = "25:00"
    ∧ ("01:00" : String) ≠ "25:00" := by
  refine ⟨rfl, rfl, by decide⟩

/-- C9 amended: the break-length field is empty unless the derived start,
stop and break length are all non-null at once (in particular a configured
break length is exported as empty on an open or absent session); when all
three are present it is rendered as `HH:mm` with hours
`floor(breakTimeLengthMin / 60) mod 24` and minutes
`breakTimeLengthMin mod 60`, and each exported row carries exactly this
field as its fifth column. -/
theorem break_field_amended (l : LatestSession) (b : Nat) (s e : Int) (m : String)
    (first : YMD) (R : Records) (br : Option Nat) :
    (l.start = none ∨ l.stop = none ∨ l.breakTimeLengthMin = none →
      breakFieldOf l = "")
    ∧ breakFieldOf ⟨some s, some e, m, some b⟩
        = padNum 2 (b / 60 % 24) ++ ":" ++ padNum 2 (b % 60)
    ∧ formatSpecifiedMonthRecordsAsCsvForMail first R br
        = (getDaysInMonth first).map (fun date =>
            toCsvRow [formatYMD date,
              optTimeField (getLatestOf (List.lookup (makeRecordKey date) R) br).start,
              optTimeField (getLatestOf (List.lookup (makeRecordKey date) R) br).stop,
              (getLatestOf (List.lookup (makeRecordKey date) R) br).memo,
              breakFieldOf (getLatestOf (List.lookup (makeRecordKey date) R) br)]) := by
  refine ⟨?_, rfl, rfl⟩
  obtain ⟨ls, lp, lm, lb⟩ := l
  rintro (h | h | h) <;> simp only [] at h <;> subst h <;>
    simp [breakFieldOf]

/-- C9 witness: an open session with a configured break exports empty. -/
theorem break_field_amended_witness :
    (LatestSession.mk (some 0) none "" (some 30)).stop = none
    ∧ breakFieldOf ⟨some 0, none, "", some 30⟩ = "" :=
  ⟨rfl,
   (break_field_amended ⟨some 0, none, "", some 30⟩ 90 0 0 "" ⟨2024, 1, 1⟩ [] none).1
     (Or.inr (Or.inl rfl))⟩

/-- C10 counterexample: the memo "a,b" contains a comma, is embedded
verbatim in its quoted field, and the produced row is nevertheless a
well-formed quoted-CSV record (commas inside quotes are legal), refuting
the claim that any memo containing a comma (or newline) yields an
ill-formed record. -/
theorem csv_comma_memo_wellformed_cex :
    (',' ∈ ("a,b" : String).data)
    ∧ (formatSpecifiedMonthRecordsAsCsvForMail ⟨2024, 1, 1⟩
        [("20240101", ⟨[32400000], [61200000], ["a,b"]⟩)] none).head?
      = some "\"2024-01-01\",\"09:00\",\"17:00\",\"a,b\",\"\""
    ∧ csvRowWellFormed "\"2024-01-01\",\"09:00\",\"17:00\",\"a,b\",\"\"" = true := by
  exact ⟨by decide, rfl, by decide⟩

/-- C10 amended: both exporters build each row by wrapping the raw column
values — the memo verbatim — in single pairs of double quotes with no
escaping; a row whose fields contain no double quote is a well-formed
quoted-CSV record (so commas and newlines in memos stay inside their
field), while a memo containing an odd number of double quotes — in
particular a single unescaped quote — among otherwise quote-free fields
always yields a row that is not a well-formed quoted-CSV record. -/
theorem csv_quoting_amended (first : YMD) (R : Records) (br : Option Nat)
    (date : YMD) (cols : List String) (hne : cols ≠ [])
    (hq : ∀ s ∈ cols, '"' ∉ s.data)
    (pre post : List String) (m : String)
    (hqp : ∀ s ∈ pre ++ post, '"' ∉ s.data)
    (hodd : m.data.count '"' % 2 = 1) :
    formatSpecifiedMonthRecordsAsCsvForMail first R br
      = (getDaysInMonth first).map (fun d =>
          toCsvRow [formatYMD d,
            optTimeField (getLatestOf (List.lookup (makeRecordKey d) R) br).start,
            optTimeField (getLatestOf (List.lookup (makeRecordKey d) R) br).stop,
            (getLatestOf (List.lookup (makeRecordKey d) R) br).memo,
            breakFieldOf (getLatestOf (List.lookup (makeRecordKey d) R) br)])
    ∧ mailBodyLine date R
        = toCsvRow [formatYMD date,
            optTimeField (getLatestOf (List.lookup (makeRecordKey date) R)).start,
            optTimeField (getLatestOf (List.lookup (makeRecordKey date) R)).stop,
            (getLatestOf (List.lookup (makeRecordKey date) R)).memo]
    ∧ csvRowWellFormed (toCsvRow cols) = true
    ∧ csvRowWellFormed (toCsvRow (pre ++ m :: post)) = false :=
  ⟨rfl, rfl, csvRow_wellformed_of_no_quote cols hne hq,
   csvRow_odd_quotes_not_wellformed pre post m hqp hodd⟩

/-- C10 witness: quote-free fields, one containing a comma, give a
well-formed row; the single-quote memo among quote-free fields gives an
ill-formed one. -/
theorem csv_quoting_amended_witness :
    (["a", "b,c"] : List String) ≠ []
    ∧ (∀ s ∈ (["a", "b,c"] : List String), '"' ∉ s.data)
    ∧ (∀ s ∈ (["x"] ++ ([""] : List String)), '"' ∉ s.data)
    ∧ ("\"" : String).data.count '"' % 2 = 1
    ∧ csvRowWellFormed (toCsvRow ["a", "b,c"]) = true
    ∧ csvRowWellFormed (toCsvRow (["x"] ++ "\"" :: [""])) = false :=
  ⟨by decide, by decide, by decide, by decide,
   (csv_quoting_amended ⟨2024, 1, 1⟩ [] none ⟨2024, 1, 1⟩ ["a", "b,c"]
      (by decide) (by decide) ["x"] [""] "\"" (by decide) (by decide)).2.2.1,
   (csv_quoting_amended ⟨2024, 1, 1⟩ [] none ⟨2024, 1, 1⟩ ["a", "b,c"]
      (by decide) (by decide) ["x"] [""] "\"" (by decide) (by decide)).2.2.2⟩

end WTA
